import Mathlib

/-
Shallow embedding of src/lib/conversation-memory.ts, the conversation memory
and context summarization subsystem of the hanmate repository.

Modelling conventions:
- The two localStorage keys are the two fields of the Storage record; the state
  of one key is absent (getItem returns null), corrupt (the stored string makes
  JSON.parse raise), or value v (the stored string decodes to v).
- The functions run in a browser context (the typeof window guard is not taken)
  and storage writes on the success path of their try blocks; JSON round-trips
  values written by this module faithfully.
- JavaScript string operations are modelled on the character list of the Lean
  string: includes as list containment of a contiguous segment, toLowerCase as
  the per-character ASCII fold (the keyword tables are ASCII or Korean, where
  the two folds agree), slice(0, 50) as String.take 50 (the two agree on
  contents inside the basic multilingual plane).
- Fallible field accesses on unvalidated parsed records are modelled with
  Option: none stands for an uncaught TypeError.
-/

namespace ConversationMemory

/-- Role of a chat message: the union of the literal types user and assistant
in the source interface ConversationMessage. -/
inductive Role where
  | user
  | assistant
deriving DecidableEq

/-- Message record of the source interface ConversationMessage. -/
structure ConversationMessage where
  role : Role
  content : String
  timestamp : Nat
deriving DecidableEq

/-- Profile record of the source interface UserProfile. -/
structure UserProfile where
  preferences : List String
  topics : List String
  concerns : List String
  lastActive : Nat
  conversationCount : Nat
deriving DecidableEq

/-- State of one localStorage key: getItem yields null (absent), a string on
which JSON.parse raises (corrupt), or a string decoding to a value. -/
inductive Stored (α : Type) where
  | absent
  | corrupt
  | value (v : α)
deriving DecidableEq

/-- The two localStorage keys used by the module: STORAGE_KEY holds the
history list and PROFILE_KEY holds the profile record. -/
structure Storage where
  history : Stored (List ConversationMessage)
  profile : Stored UserProfile
deriving DecidableEq

/-- MAX_HISTORY from the source: keep the last 20 messages for context. -/
def MAX_HISTORY : Nat := 20

/-- JavaScript slice with a negative start: l.slice(-n) keeps the last n
elements, the whole list when it is shorter. Modelled for n > 0, which covers
every use in the source. -/
def sliceLast (n : Nat) (l : List α) : List α := l.drop (l.length - n)

/-- JavaScript String.prototype.includes: containment of a contiguous
substring. -/
def strIncludes (s sub : String) : Bool := decide (sub.data <:+: s.data)

/-- JavaScript String.prototype.toLowerCase, applied per character. -/
def lowerStr (s : String) : String := String.mk (s.data.map Char.toLower)

/-- JavaScript Array.prototype.join with a separator. -/
def joinSep (sep : String) : List String → String
  | [] => ""
  | [x] => x
  | x :: y :: xs => x ++ sep ++ joinSep sep (y :: xs)

/-- Rendering of a Role back to its literal string. -/
def roleString : Role → String
  | Role.user => "user"
  | Role.assistant => "assistant"

/-- getConversationHistory: the parsed stored list, or the empty list when the
key is absent or the stored string fails to parse; a parsed value is returned
unchanged, with no length cap or schema check applied on read. -/
def getConversationHistory (s : Storage) : List ConversationMessage :=
  match s.history with
  | Stored.value h => h
  | _ => []

/-- saveMessage: read the history, push the message, keep only the last
MAX_HISTORY entries, persist the result. -/
def saveMessage (s : Storage) (message : ConversationMessage) : Storage :=
  let history := getConversationHistory s
  let recentHistory := sliceLast MAX_HISTORY (history ++ [message])
  { s with history := Stored.value recentHistory }

/-- Folding saveMessage over a sequence of messages, oldest first. -/
def saveMessages (s : Storage) (messages : List ConversationMessage) : Storage :=
  messages.foldl saveMessage s

/-- clearConversationHistory: localStorage.removeItem on STORAGE_KEY, after
which getItem on that key returns null; removeItem raises no error in the Web
Storage interface, so the operation is total and the other key is untouched. -/
def clearConversationHistory (s : Storage) : Storage :=
  { s with history := Stored.absent }

/-- Default profile record built inline by getUserProfile, with lastActive
set to Date.now(). -/
def defaultProfile (now : Nat) : UserProfile :=
  { preferences := [], topics := [], concerns := [], lastActive := now,
    conversationCount := 0 }

/-- getUserProfile: the parsed stored record, or the default when the key is
absent or the stored string fails to parse. -/
def getUserProfile (s : Storage) (now : Nat) : UserProfile :=
  match s.profile with
  | Stored.value p => p
  | _ => defaultProfile now

/-- saveUserProfile: persist the profile record under PROFILE_KEY. -/
def saveUserProfile (s : Storage) (profile : UserProfile) : Storage :=
  { s with profile := Stored.value profile }

/-- The keyword table topicKeywords of learnFromConversation. -/
def topicKeywords : List (String × List String) :=
  [("health", ["건강", "병원", "약", "아픔", "통증", "치료", "health", "hospital",
      "medicine", "pain"]),
   ("family", ["가족", "자식", "손자", "딸", "아들", "family", "son", "daughter",
      "grandchild"]),
   ("loneliness", ["외로움", "혼자", "고독", "lonely", "alone", "loneliness"]),
   ("money", ["돈", "경제", "생활비", "연금", "money", "economy", "pension",
      "expenses"]),
   ("daily", ["일상", "하루", "요리", "산책", "독서", "daily", "cooking", "walking",
      "reading"])]

/-- The list concernKeywords of learnFromConversation. -/
def concernKeywords : List String :=
  ["걱정", "불안", "힘들", "어렵", "worried", "anxious", "difficult", "hard"]

/-- recentText of learnFromConversation: contents of the last 10 messages
joined by a space and lowercased. -/
def recentText (messages : List ConversationMessage) : String :=
  lowerStr (joinSep " " ((sliceLast 10 messages).map (fun m => m.content)))

/-- One iteration of the topic detection loop of learnFromConversation. -/
def detectTopicStep (text : String) (ts : List String)
    (row : String × List String) : List String :=
  if row.2.any (fun k => strIncludes text k) then
    if ts.contains row.1 then ts else ts ++ [row.1]
  else ts

/-- The topic detection loop of learnFromConversation over a keyword table. -/
def detectTopics (table : List (String × List String)) (text : String)
    (ts : List String) : List String :=
  table.foldl (detectTopicStep text) ts

/-- Predicate of the find call in concern detection: the lowercased content of
the message contains some concern keyword. -/
def concernPred (m : ConversationMessage) : Bool :=
  concernKeywords.any (fun k => strIncludes (lowerStr m.content) k)

/-- The concern branch of learnFromConversation acting on the concerns field:
when the blob contains a concern keyword, find scans the last 3 messages in
order and returns the first match; its first 50 characters are appended unless
already present, then the list is truncated to the last 5. -/
def updateConcerns (messages : List ConversationMessage) (text : String)
    (cs : List String) : List String :=
  if concernKeywords.any (fun k => strIncludes text k) then
    match (sliceLast 3 messages).find? concernPred with
    | some m =>
      if cs.contains (m.content.take 50) then cs
      else sliceLast 5 (cs ++ [m.content.take 50])
    | none => cs
  else cs

/-- learnFromConversation as a pure transformer of the profile record, with
Date.now() passed in as now. -/
def learnProfile (messages : List ConversationMessage) (profile : UserProfile)
    (now : Nat) : UserProfile :=
  let text := recentText messages
  { profile with
    topics := detectTopics topicKeywords text profile.topics
    concerns := updateConcerns messages text profile.concerns
    lastActive := now
    conversationCount := profile.conversationCount + 1 }

/-- learnFromConversation at the storage level: read the profile, update it,
persist it. -/
def learnFromConversation (s : Storage) (messages : List ConversationMessage)
    (now : Nat) : Storage :=
  saveUserProfile s (learnProfile messages (getUserProfile s now) now)

/-- Body of getContextSummary as a function of the profile and history it
reads: early empty return, then up to three fragments in fixed order joined by
a period and a space. -/
def contextSummaryOf (profile : UserProfile)
    (history : List ConversationMessage) : String :=
  if history.length == 0 && profile.topics.length == 0 then ""
  else
    let parts : List String :=
      (if profile.topics.length > 0 then
        ["User has mentioned these topics: " ++ joinSep ", " profile.topics]
       else []) ++
      (if profile.concerns.length > 0 then
        ["Recent concerns: " ++ joinSep "; " (sliceLast 2 profile.concerns)]
       else []) ++
      (if history.length > 0 then
        ["Recent conversation context: " ++ joinSep " | "
          ((sliceLast 6 history).map
            (fun m => roleString m.role ++ ": " ++ m.content))]
       else [])
    joinSep ". " parts

/-- getContextSummary: reads the profile and the history, then assembles the
summary string. -/
def getContextSummary (s : Storage) (now : Nat) : String :=
  contextSummaryOf (getUserProfile s now) (getConversationHistory s)

/-- Profile record as JSON.parse actually yields it: the cast in
getUserProfile checks nothing, so every field may be missing. -/
structure RawProfile where
  preferences : Option (List String)
  topics : Option (List String)
  concerns : Option (List String)
  lastActive : Option Nat
  conversationCount : Option Nat
deriving DecidableEq

/-- getUserProfile on the raw, unvalidated decoding of the PROFILE_KEY value:
a parsed record is returned unchanged, however malformed. -/
def getUserProfileRaw (p : Stored RawProfile) (now : Nat) : RawProfile :=
  match p with
  | Stored.value q => q
  | _ =>
    { preferences := some [], topics := some [], concerns := some [],
      lastActive := some now, conversationCount := some 0 }

/-- One iteration of the topic loop on a raw profile: when a keyword matches,
the code calls includes on the topics field, which is a TypeError (modelled
none) when the field is missing. -/
def detectTopicStepRaw (text : String) (ts : Option (List String))
    (row : String × List String) : Option (Option (List String)) :=
  if row.2.any (fun k => strIncludes text k) then
    match ts with
    | none => none
    | some l => some (some (if l.contains row.1 then l else l ++ [row.1]))
  else some ts

/-- The concern branch on a raw profile: includes on a missing concerns field
is a TypeError (modelled none). -/
def updateConcernsRaw (messages : List ConversationMessage) (text : String)
    (cs : Option (List String)) : Option (Option (List String)) :=
  if concernKeywords.any (fun k => strIncludes text k) then
    match (sliceLast 3 messages).find? concernPred with
    | some m =>
      match cs with
      | none => none
      | some l =>
        some (some (if l.contains (m.content.take 50) then l
          else sliceLast 5 (l ++ [m.content.take 50])))
    | none => some cs
  else some cs

/-- learnFromConversation on a raw profile; none models an uncaught TypeError
from a field access on a missing field. The counter update keeps none for a
missing counter, mirroring the non-number result of undefined + 1. -/
def learnProfileRaw (messages : List ConversationMessage) (p : RawProfile)
    (now : Nat) : Option RawProfile := do
  let text := recentText messages
  let tops ← topicKeywords.foldlM (detectTopicStepRaw text) p.topics
  let cs ← updateConcernsRaw messages text p.concerns
  some
    { p with
      topics := tops
      concerns := cs
      lastActive := some now
      conversationCount := p.conversationCount.map (fun n => n + 1) }

/-- A storage state with nothing persisted yet. -/
def emptyStore : Storage := { history := Stored.absent, profile := Stored.absent }

/-- Test vector: the user and assistant messages of pair number i. -/
def pairMessages (i : Nat) : List ConversationMessage :=
  [{ role := Role.user, content := "u" ++ toString i, timestamp := 2 * i },
   { role := Role.assistant, content := "a" ++ toString i, timestamp := 2 * i + 1 }]

/-- Test vector: 25 user/assistant pairs, 50 messages in pair order. -/
def fiftyMessages : List ConversationMessage :=
  ((List.range 25).map (fun i => pairMessages (i + 1))).flatten

/-- Test vector: two user messages that both contain a concern keyword. -/
def twoWorried : List ConversationMessage :=
  [{ role := Role.user, content := "worried about one", timestamp := 0 },
   { role := Role.user, content := "worried about two", timestamp := 1 }]

/-- Test vector: a decoded history value of 21 entries, one more than
MAX_HISTORY. -/
def listTwentyOne : List ConversationMessage :=
  (List.range 21).map (fun i => { role := Role.user, content := toString i, timestamp := i })

/-- Test vector: the raw decoding of the stored string of an empty JSON
object, every field missing. -/
def emptyRawProfile : RawProfile :=
  { preferences := none, topics := none, concerns := none, lastActive := none,
    conversationCount := none }

/- Helper lemmas. -/

theorem sliceLast_eq_rtake (n : Nat) (l : List α) : sliceLast n l = List.rtake l n := rfl

theorem sliceLast_length (n : Nat) (l : List α) :
    (sliceLast n l).length = min l.length n := by
  simp [sliceLast]
  omega

theorem sliceLast_absorb (n : Nat) (hn : 1 ≤ n) (l : List α) (a : α) :
    sliceLast n (sliceLast n l ++ [a]) = sliceLast n (l ++ [a]) := by
  obtain ⟨m, rfl⟩ : ∃ m, n = m + 1 := ⟨n - 1, by omega⟩
  have hmin : min m (m + 1) = m := Nat.min_eq_left (Nat.le_succ m)
  rw [sliceLast_eq_rtake, sliceLast_eq_rtake, sliceLast_eq_rtake,
    List.rtake_eq_reverse_take_reverse, List.rtake_eq_reverse_take_reverse,
    List.rtake_eq_reverse_take_reverse]
  simp [List.take_take, hmin]

theorem strIncludes_iff (s sub : String) :
    strIncludes s sub = true ↔ sub.data <:+: s.data := by
  simp [strIncludes]

theorem strIncludes_append_append (pre needle rest : String) :
    strIncludes (pre ++ (needle ++ rest)) needle = true := by
  simp only [strIncludes_iff, String.data_append]
  exact ⟨pre.data, rest.data, by simp⟩

theorem string_eq_of_data (a b : String) (h : a.data = b.data) : a = b := by
  cases a
  cases b
  exact congrArg String.mk h

theorem append_ne_empty_left (a b : String) (ha : a ≠ "") : a ++ b ≠ "" := by
  intro h
  apply ha
  have hd : a.data ++ b.data = [] := by
    have := congrArg String.data h
    simpa [String.data_append] using this
  exact string_eq_of_data a "" (by simp [List.append_eq_nil] at hd; simp [hd.1])

theorem joinSep_cons (sep y z : String) (zs : List String) :
    joinSep sep (y :: z :: zs) = y ++ sep ++ joinSep sep (z :: zs) := rfl

theorem joinSep_ne_empty (sep x : String) (xs : List String) (hx : x ≠ "") :
    joinSep sep (x :: xs) ≠ "" := by
  cases xs with
  | nil => simpa [joinSep] using hx
  | cons y ys =>
    rw [joinSep_cons, String.append_assoc]
    exact append_ne_empty_left x (sep ++ joinSep sep (y :: ys)) hx

theorem joinSep_append_last (sep : String) (xs : List String) (x : String) :
    ∃ pre : String, joinSep sep (xs ++ [x]) = pre ++ x := by
  induction xs with
  | nil =>
    refine ⟨"", ?_⟩
    apply string_eq_of_data
    simp [joinSep, String.data_append]
  | cons y ys ih =>
    obtain ⟨pre, hpre⟩ := ih
    cases h : ys ++ [x] with
    | nil => simp at h
    | cons z zs =>
      refine ⟨y ++ sep ++ pre, ?_⟩
      rw [List.cons_append, h, joinSep_cons, ← h, hpre]
      rw [String.append_assoc, String.append_assoc, String.append_assoc]

theorem detectTopics_cons (row : String × List String) (rest : List (String × List String))
    (text : String) (ts : List String) :
    detectTopics (row :: rest) text ts = detectTopics rest text (detectTopicStep text ts row) := rfl

theorem mem_detectTopicStep (text : String) (ts : List String) (row : String × List String)
    (x : String) (hx : x ∈ ts) : x ∈ detectTopicStep text ts row := by
  unfold detectTopicStep
  split
  · split
    · exact hx
    · exact List.mem_append_left _ hx
  · exact hx

theorem mem_detectTopics (table : List (String × List String)) (text : String)
    (ts : List String) (x : String) (hx : x ∈ ts) : x ∈ detectTopics table text ts := by
  induction table generalizing ts with
  | nil => exact hx
  | cons row rest ih =>
    rw [detectTopics_cons]
    exact ih _ (mem_detectTopicStep text ts row x hx)

theorem detectTopics_hit_mem (table : List (String × List String)) (text : String)
    (ts : List String) (row : String × List String) (hmem : row ∈ table)
    (hhit : row.2.any (fun k => strIncludes text k) = true) :
    row.1 ∈ detectTopics table text ts := by
  induction table generalizing ts with
  | nil => cases hmem
  | cons r rest ih =>
    rw [detectTopics_cons]
    rcases List.mem_cons.mp hmem with heq | hrest
    · subst heq
      apply mem_detectTopics
      unfold detectTopicStep
      rw [if_pos hhit]
      split
      · next hc => exact List.elem_iff.mp hc
      · exact List.mem_append_right _ (List.mem_singleton.mpr rfl)
    · exact ih _ hrest

theorem detectTopics_eq_of_hits_mem (table : List (String × List String)) (text : String)
    (ts : List String)
    (h : ∀ row ∈ table, row.2.any (fun k => strIncludes text k) = true → row.1 ∈ ts) :
    detectTopics table text ts = ts := by
  induction table with
  | nil => rfl
  | cons r rest ih =>
    rw [detectTopics_cons]
    have hstep : detectTopicStep text ts r = ts := by
      unfold detectTopicStep
      split
      · next hhit =>
        rw [if_pos (List.elem_iff.mpr (h r (List.mem_cons_self r rest) hhit))]
      · rfl
    rw [hstep]
    exact ih (fun row hrow hhit => h row (List.mem_cons_of_mem r hrow) hhit)

theorem detectTopics_idem (table : List (String × List String)) (text : String)
    (ts : List String) :
    detectTopics table text (detectTopics table text ts) = detectTopics table text ts :=
  detectTopics_eq_of_hits_mem table text _
    (fun row hrow hhit => detectTopics_hit_mem table text ts row hrow hhit)

theorem detectTopicStep_nodup (text : String) (ts : List String) (row : String × List String)
    (h : ts.Nodup) : (detectTopicStep text ts row).Nodup := by
  unfold detectTopicStep
  split
  · split
    · exact h
    · next hc =>
      have hnotmem : row.1 ∉ ts := fun hm => hc (List.elem_iff.mpr hm)
      simp [List.nodup_append, h, hnotmem]
  · exact h

theorem detectTopics_nodup (table : List (String × List String)) (text : String)
    (ts : List String) (h : ts.Nodup) : (detectTopics table text ts).Nodup := by
  induction table generalizing ts with
  | nil => exact h
  | cons r rest ih =>
    rw [detectTopics_cons]
    exact ih _ (detectTopicStep_nodup text ts r h)

theorem detectTopicStep_extends (text : String) (ts : List String)
    (row : String × List String) : ts <+: detectTopicStep text ts row := by
  unfold detectTopicStep
  split
  · split
    · exact List.prefix_rfl
    · exact List.prefix_append ts [row.1]
  · exact List.prefix_rfl

theorem detectTopics_extends (table : List (String × List String)) (text : String)
    (ts : List String) : ts <+: detectTopics table text ts := by
  induction table generalizing ts with
  | nil => exact List.prefix_rfl
  | cons r rest ih =>
    rw [detectTopics_cons]
    exact List.IsPrefix.trans (detectTopicStep_extends text ts r) (ih _)

theorem updateConcerns_length_le (messages : List ConversationMessage) (text : String)
    (cs : List String) (h : cs.length ≤ 5) :
    (updateConcerns messages text cs).length ≤ 5 := by
  unfold updateConcerns
  split
  · split
    · split
      · exact h
      · rw [sliceLast_length]
        omega
    · exact h
  · exact h

theorem find?_of_first (p : α → Bool) (pre : List α) (m : α) (post : List α)
    (hpre : ∀ x ∈ pre, p x = false) (hm : p m = true) :
    (pre ++ m :: post).find? p = some m := by
  induction pre with
  | nil => simp [List.find?_cons, hm]
  | cons a rest ih =>
    have ha : p a = false := hpre a (List.mem_cons_self a rest)
    rw [List.cons_append, List.find?_cons, ha]
    exact ih (fun x hx => hpre x (List.mem_cons_of_mem a hx))

theorem getConversationHistory_saveMessages (msgs : List ConversationMessage) :
    ∀ (s : Storage) (acc : List ConversationMessage),
      getConversationHistory s = sliceLast MAX_HISTORY acc →
      getConversationHistory (saveMessages s msgs) = sliceLast MAX_HISTORY (acc ++ msgs) := by
  induction msgs with
  | nil =>
    intro s acc h
    simpa [saveMessages] using h
  | cons m ms ih =>
    intro s acc h
    have hstep : getConversationHistory (saveMessage s m) = sliceLast MAX_HISTORY (acc ++ [m]) := by
      have hv : getConversationHistory (saveMessage s m) =
          sliceLast MAX_HISTORY (getConversationHistory s ++ [m]) := rfl
      rw [hv, h, sliceLast_absorb MAX_HISTORY (by decide) acc m]
    have hfold : saveMessages s (m :: ms) = saveMessages (saveMessage s m) ms := rfl
    rw [hfold]
    have := ih (saveMessage s m) (acc ++ [m]) hstep
    simpa using this

theorem strIncludes_context (parts : List String) (body : String) :
    strIncludes (joinSep ". " (parts ++ ["Recent conversation context: " ++ body]))
      "Recent conversation context:" = true := by
  obtain ⟨pre, hpre⟩ := joinSep_append_last ". " parts ("Recent conversation context: " ++ body)
  rw [hpre]
  have hlit : ("Recent conversation context: " : String) =
      "Recent conversation context:" ++ " " := by decide
  rw [hlit, String.append_assoc]
  exact strIncludes_append_append pre "Recent conversation context:" (" " ++ body)

theorem contextSummaryOf_eq (P : UserProfile) (H : List ConversationMessage)
    (h : ¬(H = [] ∧ P.topics = [])) :
    contextSummaryOf P H = joinSep ". "
      ((if P.topics = [] then []
        else ["User has mentioned these topics: " ++ joinSep ", " P.topics]) ++
       (if P.concerns = [] then []
        else ["Recent concerns: " ++ joinSep "; " (sliceLast 2 P.concerns)]) ++
       (if H = [] then []
        else ["Recent conversation context: " ++ joinSep " | "
          ((sliceLast 6 H).map (fun m => roleString m.role ++ ": " ++ m.content))])) := by
  by_cases hh : H = [] <;> by_cases ht : P.topics = [] <;> by_cases hc : P.concerns = []
  · exact absurd ⟨hh, ht⟩ h
  · exact absurd ⟨hh, ht⟩ h
  all_goals
    simp [contextSummaryOf, hh, ht, hc, List.length_eq_zero, List.length_pos]

theorem contextSummaryOf_ne_empty (P : UserProfile) (H : List ConversationMessage)
    (h : ¬(H = [] ∧ P.topics = [])) : contextSummaryOf P H ≠ "" := by
  rw [contextSummaryOf_eq P H h]
  by_cases hh : H = [] <;> by_cases ht : P.topics = [] <;> by_cases hc : P.concerns = []
  · exact absurd ⟨hh, ht⟩ h
  · exact absurd ⟨hh, ht⟩ h
  all_goals
    simp only [hh, ht, hc, if_pos, if_neg, List.nil_append, List.append_nil,
      List.cons_append, List.singleton_append, ite_true, ite_false, if_true, if_false]
  all_goals
    exact joinSep_ne_empty _ _ _ (append_ne_empty_left _ _ (by decide))

theorem contextSummaryOf_substring (P : UserProfile) (H : List ConversationMessage)
    (hne : H ≠ []) :
    strIncludes (contextSummaryOf P H) "Recent conversation context:" = true := by
  rw [contextSummaryOf_eq P H (fun hand => hne hand.1), if_neg hne]
  exact strIncludes_context _ _

theorem conversationCount_le_foldl (now : Nat) :
    ∀ (hs : List (List ConversationMessage)) (s : Storage),
      (getUserProfile s now).conversationCount ≤
        (getUserProfile (hs.foldl (fun st ms => learnFromConversation st ms now) s) now).conversationCount := by
  intro hs
  induction hs with
  | nil => intro s; exact Nat.le_refl _
  | cons ms rest ih =>
    intro s
    have hstep : (getUserProfile (learnFromConversation s ms now) now).conversationCount =
        (getUserProfile s now).conversationCount + 1 := rfl
    calc (getUserProfile s now).conversationCount
        ≤ (getUserProfile (learnFromConversation s ms now) now).conversationCount := by
          rw [hstep]; exact Nat.le_succ _
      _ ≤ _ := ih (learnFromConversation s ms now)

/- Claim theorems. -/

/-- C1: starting from an empty persisted history, appending any sequence of N
messages through saveMessage leaves getConversationHistory returning exactly
the most recent min(N, 20) messages in their original append order, the
oldest entries being evicted first once the cap is exceeded. -/
theorem claim1_history_cap_fifo (p : Stored UserProfile)
    (msgs : List ConversationMessage) :
    getConversationHistory (saveMessages { history := Stored.absent, profile := p } msgs) =
      sliceLast MAX_HISTORY msgs ∧
    (getConversationHistory (saveMessages { history := Stored.absent, profile := p } msgs)).length =
      min msgs.length MAX_HISTORY := by
  have h := getConversationHistory_saveMessages msgs
    { history := Stored.absent, profile := p } [] rfl
  rw [List.nil_append] at h
  exact ⟨h, by rw [h, sliceLast_length]⟩

/-- C2: getContextSummary is empty exactly when both the stored topics and the
stored history are empty; whenever the history is non-empty the result contains
the literal substring of the conversation context fragment; otherwise the
result is the fragments present, in fixed order, joined by a period and a
space. -/
theorem claim2_context_summary (s : Storage) (now : Nat) :
    (getContextSummary s now = "" ↔
      (getConversationHistory s = [] ∧ (getUserProfile s now).topics = [])) ∧
    (getConversationHistory s ≠ [] →
      strIncludes (getContextSummary s now) "Recent conversation context:" = true) ∧
    (¬(getConversationHistory s = [] ∧ (getUserProfile s now).topics = []) →
      getContextSummary s now = joinSep ". "
        ((if (getUserProfile s now).topics = [] then []
          else ["User has mentioned these topics: " ++
            joinSep ", " (getUserProfile s now).topics]) ++
         (if (getUserProfile s now).concerns = [] then []
          else ["Recent concerns: " ++
            joinSep "; " (sliceLast 2 (getUserProfile s now).concerns)]) ++
         (if getConversationHistory s = [] then []
          else ["Recent conversation context: " ++ joinSep " | "
            ((sliceLast 6 (getConversationHistory s)).map
              (fun m => roleString m.role ++ ": " ++ m.content))]))) := by
  refine ⟨⟨fun heq => ?_, fun hand => ?_⟩,
    fun hne => contextSummaryOf_substring _ _ hne,
    fun h => contextSummaryOf_eq _ _ h⟩
  · by_contra hcon
    exact contextSummaryOf_ne_empty _ _ hcon heq
  · show contextSummaryOf (getUserProfile s now) (getConversationHistory s) = ""
    simp [contextSummaryOf, hand.1, hand.2]

theorem claim2_context_summary_witness :
    getConversationHistory
        { history := Stored.value [{ role := Role.user, content := "hi", timestamp := 0 }],
          profile := Stored.absent } ≠ [] ∧
    strIncludes
      (getContextSummary
        { history := Stored.value [{ role := Role.user, content := "hi", timestamp := 0 }],
          profile := Stored.absent } 0)
      "Recent conversation context:" = true :=
  ⟨by decide, (claim2_context_summary _ 0).2.1 (by decide)⟩

/-- C5: clearing the history removes the persisted value under the history
key, with no error raised by the underlying removal, after which the read
accessor yields the empty sequence. -/
theorem claim5_clear_history (s : Storage) :
    clearConversationHistory s = { s with history := Stored.absent } ∧
    getConversationHistory (clearConversationHistory s) = [] :=
  ⟨rfl, rfl⟩

/-- C8: when the persisted data for a key is absent or fails to decode, the
read accessors treat it as absence: getConversationHistory yields the empty
list and getUserProfile yields the zero-value default profile. -/
theorem claim8_absent_or_corrupt (s : Storage) (now : Nat)
    (hh : s.history = Stored.absent ∨ s.history = Stored.corrupt)
    (hp : s.profile = Stored.absent ∨ s.profile = Stored.corrupt) :
    getConversationHistory s = [] ∧
    getUserProfile s now = defaultProfile now ∧
    (defaultProfile now).preferences = [] ∧ (defaultProfile now).topics = [] ∧
    (defaultProfile now).concerns = [] ∧ (defaultProfile now).lastActive = now ∧
    (defaultProfile now).conversationCount = 0 := by
  refine ⟨?_, ?_, rfl, rfl, rfl, rfl, rfl⟩
  · rcases hh with h | h <;> simp [getConversationHistory, h]
  · rcases hp with h | h <;> simp [getUserProfile, h]

theorem claim8_absent_or_corrupt_witness :
    getConversationHistory { history := Stored.corrupt, profile := Stored.corrupt } = [] ∧
    getUserProfile { history := Stored.corrupt, profile := Stored.corrupt } 7 = defaultProfile 7 :=
  ⟨(claim8_absent_or_corrupt _ 7 (Or.inr rfl) (Or.inr rfl)).1,
   (claim8_absent_or_corrupt _ 7 (Or.inr rfl) (Or.inr rfl)).2.1⟩

/-- C9: clearing the history leaves the profile key untouched, so the profile
read after a clear equals the profile read before it; and a profile written by
the learn step is read back unchanged. -/
theorem claim9_clear_frame (s : Storage) (now : Nat) (p : UserProfile) :
    (clearConversationHistory s).profile = s.profile ∧
    getUserProfile (clearConversationHistory s) now = getUserProfile s now ∧
    getUserProfile (saveUserProfile s p) now = p :=
  ⟨rfl, rfl, rfl⟩

set_option maxRecDepth 8000

/-- C3 counterexample: two messages among the last 3 match a concern keyword;
the code takes the excerpt from the first (oldest) matching message, not from
the most recent one, so the recorded concern differs from the excerpt of the
most recent matching message. -/
theorem claim3_concern_excerpt_counterexample :
    concernPred { role := Role.user, content := "worried about two", timestamp := 1 } = true ∧
    String.take "worried about two" 50 = "worried about two" ∧
    (learnProfile twoWorried (defaultProfile 0) 5).concerns = ["worried about one"] ∧
    (learnProfile twoWorried (defaultProfile 0) 5).concerns ≠ ["worried about two"] := by
  exact ⟨by decide, by decide, by decide, by decide⟩

/-- C3 amended: when a concern keyword occurs in the case-folded blob of the
last 10 messages, the excerpt is the first 50 characters of the FIRST (oldest)
of the last 3 messages whose case-folded content contains a keyword; it is
appended unless an identical excerpt is already present, and the list is then
truncated to its last 5 entries. -/
theorem claim3_concern_excerpt_amended (p : UserProfile)
    (msgs : List ConversationMessage) (now : Nat)
    (pre post : List ConversationMessage) (m : ConversationMessage)
    (hblob : concernKeywords.any (fun k => strIncludes (recentText msgs) k) = true)
    (hsplit : sliceLast 3 msgs = pre ++ m :: post)
    (hpre : ∀ x ∈ pre, concernPred x = false)
    (hm : concernPred m = true) :
    (learnProfile msgs p now).concerns =
      (if p.concerns.contains (m.content.take 50) then p.concerns
       else sliceLast 5 (p.concerns ++ [m.content.take 50])) := by
  show updateConcerns msgs (recentText msgs) p.concerns = _
  unfold updateConcerns
  rw [if_pos hblob, hsplit, find?_of_first concernPred pre m post hpre hm]

theorem claim3_concern_excerpt_witness :
    (learnProfile twoWorried (defaultProfile 3) 9).concerns = ["worried about one"] := by
  have h := claim3_concern_excerpt_amended (defaultProfile 3) twoWorried 9 []
    [{ role := Role.user, content := "worried about two", timestamp := 1 }]
    { role := Role.user, content := "worried about one", timestamp := 0 }
    (by decide) (by decide) (fun x hx => absurd hx (List.not_mem_nil x)) (by decide)
  rw [h]
  decide

/-- C4 counterexample: after appending 25 user/assistant pairs (50 messages)
to an empty store, the history has 20 entries but its oldest entry is the user
message of pair 16, not the user message of pair 21. -/
theorem claim4_fifty_messages_counterexample :
    (getConversationHistory (saveMessages emptyStore fiftyMessages)).length = 20 ∧
    pairMessages 21 = [{ role := Role.user, content := "u21", timestamp := 42 },
      { role := Role.assistant, content := "a21", timestamp := 43 }] ∧
    (getConversationHistory (saveMessages emptyStore fiftyMessages)).head? ≠
      some { role := Role.user, content := "u21", timestamp := 42 } := by
  exact ⟨by decide, by decide, by decide⟩

/-- C4 amended: after appending 25 user/assistant pairs (50 messages) to an
empty store, the history has exactly 20 entries and its oldest entry is the
user message of pair 16. -/
theorem claim4_fifty_messages_amended :
    (getConversationHistory (saveMessages emptyStore fiftyMessages)).length = 20 ∧
    pairMessages 16 = [{ role := Role.user, content := "u16", timestamp := 32 },
      { role := Role.assistant, content := "a16", timestamp := 33 }] ∧
    (getConversationHistory (saveMessages emptyStore fiftyMessages)).head? =
      some { role := Role.user, content := "u16", timestamp := 32 } := by
  exact ⟨by decide, by decide, by decide⟩

/-- C6: when the blob of the last 10 messages contains a health trigger,
learning is idempotent on the topic set: a second learn call with the same
history leaves the topics unchanged, health occurs exactly once, and the
previous topics stay an initial segment of the new list, preserving
first-detection order. -/
theorem claim6_topic_idempotent (p : UserProfile) (msgs : List ConversationMessage)
    (n1 n2 : Nat) (hnodup : p.topics.Nodup)
    (hhit : ∃ kws, ("health", kws) ∈ topicKeywords ∧
      kws.any (fun k => strIncludes (recentText msgs) k) = true) :
    (learnProfile msgs (learnProfile msgs p n1) n2).topics = (learnProfile msgs p n1).topics ∧
    "health" ∈ (learnProfile msgs p n1).topics ∧
    (learnProfile msgs p n1).topics.count "health" = 1 ∧
    p.topics <+: (learnProfile msgs p n1).topics := by
  obtain ⟨kws, hmem, hk⟩ := hhit
  have htop1 : (learnProfile msgs p n1).topics =
      detectTopics topicKeywords (recentText msgs) p.topics := rfl
  have htop2 : (learnProfile msgs (learnProfile msgs p n1) n2).topics =
      detectTopics topicKeywords (recentText msgs) (learnProfile msgs p n1).topics := rfl
  refine ⟨?_, ?_, ?_, ?_⟩
  · rw [htop2, htop1]
    exact detectTopics_idem _ _ _
  · rw [htop1]
    exact detectTopics_hit_mem _ _ _ ("health", kws) hmem hk
  · rw [htop1]
    have hmem1 : "health" ∈ detectTopics topicKeywords (recentText msgs) p.topics :=
      detectTopics_hit_mem _ _ _ ("health", kws) hmem hk
    have hnd : (detectTopics topicKeywords (recentText msgs) p.topics).Nodup :=
      detectTopics_nodup _ _ _ hnodup
    have hle := List.nodup_iff_count_le_one.mp hnd "health"
    have hge := List.count_pos_iff.mpr hmem1
    omega
  · rw [htop1]
    exact detectTopics_extends _ _ _

theorem claim6_topic_idempotent_witness :
    "health" ∈ (learnProfile [{ role := Role.user, content := "건강", timestamp := 0 }]
      (defaultProfile 0) 1).topics ∧
    (learnProfile [{ role := Role.user, content := "건강", timestamp := 0 }]
      (defaultProfile 0) 1).topics.count "health" = 1 := by
  have h := claim6_topic_idempotent (defaultProfile 0)
    [{ role := Role.user, content := "건강", timestamp := 0 }] 1 2 (by decide)
    ⟨["건강", "병원", "약", "아픔", "통증", "치료", "health", "hospital", "medicine", "pain"],
      by decide, by decide⟩
  exact ⟨h.2.1, h.2.2.1⟩

/-- C7: the learn step preserves the profile invariant (no duplicate topics,
at most 5 concerns) and strictly increases the conversation counter; over any
sequence of learn calls the counter is monotonically non-decreasing. -/
theorem claim7_profile_invariants (s : Storage) (msgs : List ConversationMessage)
    (now now2 : Nat) (h1 : (getUserProfile s now).topics.Nodup)
    (h2 : (getUserProfile s now).concerns.length ≤ 5) :
    (getUserProfile (learnFromConversation s msgs now) now2).topics.Nodup ∧
    (getUserProfile (learnFromConversation s msgs now) now2).concerns.length ≤ 5 ∧
    (getUserProfile s now).conversationCount <
      (getUserProfile (learnFromConversation s msgs now) now2).conversationCount ∧
    (∀ hs : List (List ConversationMessage),
      (getUserProfile s now).conversationCount ≤
        (getUserProfile (hs.foldl (fun st ms => learnFromConversation st ms now) s) now).conversationCount) := by
  have hread : getUserProfile (learnFromConversation s msgs now) now2 =
      learnProfile msgs (getUserProfile s now) now := rfl
  have ht : (learnProfile msgs (getUserProfile s now) now).topics =
      detectTopics topicKeywords (recentText msgs) (getUserProfile s now).topics := rfl
  have hc : (learnProfile msgs (getUserProfile s now) now).concerns =
      updateConcerns msgs (recentText msgs) (getUserProfile s now).concerns := rfl
  have hcount : (learnProfile msgs (getUserProfile s now) now).conversationCount =
      (getUserProfile s now).conversationCount + 1 := rfl
  refine ⟨?_, ?_, ?_, fun hs => conversationCount_le_foldl now hs s⟩
  · rw [hread, ht]
    exact detectTopics_nodup _ _ _ h1
  · rw [hread, hc]
    exact updateConcerns_length_le _ _ _ h2
  · rw [hread, hcount]
    exact Nat.lt_succ_self _

theorem claim7_profile_invariants_witness :
    (getUserProfile emptyStore 0).conversationCount <
      (getUserProfile (learnFromConversation emptyStore [] 0) 1).conversationCount :=
  (claim7_profile_invariants emptyStore [] 0 1 (by decide) (by decide)).2.2.1

/-- C10: the read accessors perform no schema validation or re-capping on
successfully decoded data: a decoded history of 21 entries is returned
unchanged, a decoded profile record with every field missing is returned
unchanged, and the learn step on that record crashes on a field access
(modelled none) instead of totalizing it. -/
theorem claim10_no_validation :
    getConversationHistory
      { history := Stored.value listTwentyOne, profile := Stored.absent } = listTwentyOne ∧
    listTwentyOne.length = 21 ∧
    MAX_HISTORY = 20 ∧
    getUserProfileRaw (Stored.value emptyRawProfile) 0 = emptyRawProfile ∧
    learnProfileRaw [{ role := Role.user, content := "health", timestamp := 0 }]
      emptyRawProfile 0 = none := by
  exact ⟨rfl, by decide, rfl, rfl, by decide⟩

end ConversationMemory
